import Mathlib

/-!
Shallow embedding of the `runway` backend (Go) for verification.

Source files embedded:
- `back-end/services/app_service.go`: `GetApps`, `GetReviews`, `convertReviews`,
  `saveDataToFile`, `loadAppsFromFile`.
- `models` package: `Review`, `ReviewResponse`, `Review.ToReviewResponse`,
  `App`, `AppResponse`, `App.ToAppResponse`, `App.UnmarshalJSON`, `Link`.
- `handlers` package: `AppReviewsHandler`.

Modelling conventions:
- Go's `(T, error)` returns become `Except String T`.
- Machine time values (`time.Time`) become `Int` nanoseconds on an absolute
  scale; `time.Parse(time.RFC3339, s)` becomes `parseRFC3339 : String → Option Int`.
- Go's `strconv.Atoi` becomes `goAtoi : String → Option Int` (optional sign,
  decimal digits, 64-bit signed range).
- JSON documents become the `Json` inductive; `json.RawMessage` fields hold a
  `Json` value (`Option Json`, `none` for a nil raw message).
- The nested `{label, attributes}` envelopes of the upstream feed are flattened
  into plain string fields of the Lean structures; each field is annotated with
  the Go path it embeds.
-/

/-- One app review.  Embeds Go `models.Review`; each nested
`struct { Label string }` envelope is flattened to the inner string:
`ID.Label`, `Author.Name.Label`, `Content.Label`, `Rating.Label`
(json `im:rating`), `Timestamp.Label` (json `updated`). -/
structure Review where
  ID : String
  Author : String
  Content : String
  Rating : String
  Timestamp : String

/-- Embeds Go `models.ReviewResponse` (fields ID, Content, Author, Score, Time). -/
structure ReviewResponse where
  ID : String
  Content : String
  Author : String
  Score : Int
  Time : String

/-- Model of Go `strconv.Atoi`: optional `+`/`-` sign followed by one or more
decimal digits, nothing else, and the value must fit a signed 64-bit int
(`Atoi` is `ParseInt(s, 10, 0)` on a 64-bit platform). `none` models a non-nil
error. -/
def goAtoi (s : String) : Option Int :=
  match s.data with
  | [] => none
  | c :: rest =>
    let p : Bool × List Char :=
      if c = '-' then (true, rest)
      else if c = '+' then (false, rest)
      else (false, c :: rest)
    if p.2.isEmpty then none
    else if p.2.all Char.isDigit then
      let n : Nat := p.2.foldl (fun acc d => acc * 10 + (d.toNat - 48)) 0
      let v : Int := if p.1 then -(n : Int) else (n : Int)
      if -(2 ^ 63) ≤ v ∧ v ≤ 2 ^ 63 - 1 then some v else none
    else none

/-- Numeric value of an ASCII digit character. -/
def digitVal (c : Char) : Option Nat :=
  if c.isDigit then some (c.toNat - 48) else none

/-- Parse exactly two digits. -/
def parseTwo : List Char → Option (Nat × List Char)
  | a :: b :: rest =>
    match digitVal a, digitVal b with
    | some x, some y => some (x * 10 + y, rest)
    | _, _ => none
  | _ => none

/-- Parse exactly four digits. -/
def parseFour : List Char → Option (Nat × List Char)
  | a :: b :: c :: d :: rest =>
    match digitVal a, digitVal b, digitVal c, digitVal d with
    | some w, some x, some y, some z => some (((w * 10 + x) * 10 + y) * 10 + z, rest)
    | _, _, _, _ => none
  | _ => none

/-- Consume one expected character. -/
def expectChar (c : Char) : List Char → Option (List Char)
  | x :: rest => if x = c then some rest else none
  | [] => none

/-- Split off a maximal run of leading ASCII digits (as digit values). -/
def takeDigits : List Char → List Nat × List Char
  | [] => ([], [])
  | c :: rest =>
    if c.isDigit then
      let p := takeDigits rest
      ((c.toNat - 48) :: p.1, p.2)
    else ([], c :: rest)

/-- Nanoseconds denoted by a fractional-second digit string (Go keeps at most
nine digits of precision). -/
def nanoOfFrac (ds : List Nat) : Nat :=
  let ds9 := ds.take 9
  ds9.foldl (fun acc d => acc * 10 + d) 0 * 10 ^ (9 - ds9.length)

/-- Parse the RFC3339 zone suffix (`Z` or `±hh:mm`), consuming all remaining
input; result is the zone offset in seconds east of UTC. -/
def parseZone : List Char → Option Int
  | ['Z'] => some 0
  | c :: rest =>
    if c = '+' ∨ c = '-' then
      match parseTwo rest with
      | some (h, rest2) =>
        match expectChar ':' rest2 with
        | some rest3 =>
          match parseTwo rest3 with
          | some (m, []) =>
            if h ≤ 23 ∧ m ≤ 59 then
              let secs : Int := ((h * 3600 + m * 60 : Nat) : Int)
              some (if c = '-' then -secs else secs)
            else none
          | _ => none
        | none => none
      | none => none
    else none
  | [] => none

/-- Leap year in the proleptic Gregorian calendar. -/
def isLeapYear (y : Nat) : Bool :=
  y % 4 == 0 && (y % 100 != 0 || y % 400 == 0)

/-- Number of days in the given month. -/
def daysInMonth (y m : Nat) : Nat :=
  match m with
  | 1 => 31
  | 2 => if isLeapYear y then 29 else 28
  | 3 => 31
  | 4 => 30
  | 5 => 31
  | 6 => 30
  | 7 => 31
  | 8 => 31
  | 9 => 30
  | 10 => 31
  | 11 => 30
  | 12 => 31
  | _ => 0

/-- Days in year `y` strictly before month `m`. -/
def daysBeforeMonth (y m : Nat) : Nat :=
  (match m with
   | 1 => 0
   | 2 => 31
   | 3 => 59
   | 4 => 90
   | 5 => 120
   | 6 => 151
   | 7 => 181
   | 8 => 212
   | 9 => 243
   | 10 => 273
   | 11 => 304
   | 12 => 334
   | _ => 0)
  + (if 3 ≤ m ∧ isLeapYear y then 1 else 0)

/-- Days in the proleptic Gregorian calendar strictly before year `y`
(year 0 is a leap year). -/
def daysBeforeYear (y : Nat) : Nat :=
  365 * y + (if y = 0 then 0 else (y - 1) / 4 - (y - 1) / 100 + (y - 1) / 400 + 1)

/-- Seconds from the calendar origin (year 0) to the given civil datetime. -/
def civilSecs (y mo d hh mi ss : Nat) : Nat :=
  (daysBeforeYear y + daysBeforeMonth y mo + (d - 1)) * 86400 + hh * 3600 + mi * 60 + ss

/-- Model of Go `time.Parse(time.RFC3339, s)`: `YYYY-MM-DDTHH:MM:SS`, an
optional fractional-second field, then `Z` or a `±hh:mm` zone offset.  The
result is an absolute instant in nanoseconds (UTC), so that `Int` order
models `time.Time.After`; `none` models a parse error. -/
def parseRFC3339 (s : String) : Option Int := do
  let cs := s.data
  let (y, cs) ← parseFour cs
  let cs ← expectChar '-' cs
  let (mo, cs) ← parseTwo cs
  let cs ← expectChar '-' cs
  let (d, cs) ← parseTwo cs
  let cs ← expectChar 'T' cs
  let (hh, cs) ← parseTwo cs
  let cs ← expectChar ':' cs
  let (mi, cs) ← parseTwo cs
  let cs ← expectChar ':' cs
  let (ss, cs) ← parseTwo cs
  let fr ← match cs with
    | '.' :: rest =>
      match takeDigits rest with
      | ([], _) => none
      | (ds, rest2) => some (nanoOfFrac ds, rest2)
    | _ => some (0, cs)
  let off ← parseZone fr.2
  if 1 ≤ mo ∧ mo ≤ 12 ∧ 1 ≤ d ∧ d ≤ daysInMonth y mo ∧ hh ≤ 23 ∧ mi ≤ 59 ∧ ss ≤ 59 then
    some (((civilSecs y mo d hh mi ss : Int) - off) * 1000000000 + (fr.1 : Int))
  else none

/-- Embeds `models.Review.ToReviewResponse`: parse the rating label with
`strconv.Atoi`; on failure return the error (the caller aborts); otherwise
build the flat response, passing the timestamp string through unconverted. -/
def Review.ToReviewResponse (r : Review) : Except String ReviewResponse :=
  match goAtoi r.Rating with
  | none => Except.error "failed to convert rating to integer"
  | some score =>
    Except.ok { ID := r.ID, Content := r.Content, Author := r.Author,
                Score := score, Time := r.Timestamp }

/-- Embeds `services.convertReviews`: convert each review in order; the first
conversion error aborts the whole batch with that error and no partial result. -/
def convertReviews : List Review → Except String (List ReviewResponse)
  | [] => Except.ok []
  | r :: rest =>
    match r.ToReviewResponse with
    | Except.error e => Except.error e
    | Except.ok resp =>
      match convertReviews rest with
      | Except.error e => Except.error e
      | Except.ok l => Except.ok (resp :: l)

/-- Nanoseconds in one Go `time.Hour`. -/
def nanosPerGoHour : Int := 3600000000000

/-- Two's-complement wrapping of an arithmetic result into a signed 64-bit
integer, as Go's `int64` (and hence `time.Duration`) arithmetic does. -/
def int64Wrap (x : Int) : Int := (x + 2 ^ 63) % 2 ^ 64 - 2 ^ 63

/-- The filter predicate of `GetReviews` (lines 210-219 of app_service.go):
keep a review iff its timestamp parses as RFC3339 and the parsed instant is
strictly after the cutoff (`reviewTime.After(cutoff)`); a parse failure skips
the review. -/
def keepRecent (cutoff : Int) (r : Review) : Bool :=
  match parseRFC3339 r.Timestamp with
  | some t => decide (cutoff < t)
  | none => false

/-- The `recentReviews` accumulation loop of `GetReviews`. -/
def recentReviews (allReviews : List Review) (cutoff : Int) : List Review :=
  allReviews.filter (keepRecent cutoff)

/-- Embeds `services.AppService.GetReviews` after the upstream fetch: the
fetched review list is passed in (`allReviews`), `now` is the sampled current
instant.  `hours == 0` converts every review unfiltered; otherwise the cutoff
is `time.Now().Add(time.Duration(-hours) * time.Hour)`, where the duration
multiplication is `int64` arithmetic and wraps (so for `hours > 2562047` the
cutoff is not `now - hours` hours); only reviews kept by `keepRecent` are
converted. -/
def GetReviews (allReviews : List Review) (now hours : Int) :
    Except String (List ReviewResponse) :=
  if hours = 0 then convertReviews allReviews
  else
    convertReviews
      (recentReviews allReviews (now + int64Wrap (-hours * nanosPerGoHour)))

/-- Outcome of an HTTP handler: 400, 500, or 200 with a body. -/
inductive HandlerResult where
  | badRequest : String → HandlerResult
  | serverError : String → HandlerResult
  | ok : List ReviewResponse → HandlerResult

/-- Embeds `handlers.AppReviewsHandler`: 400 when `id` is missing; `hours`
defaults to 0 when absent; a present `hours` that fails `strconv.Atoi` or is
negative is a 400; otherwise the service result is returned (error → 500).
`svc` stands for `AppService.GetReviews`. -/
def AppReviewsHandler (id hoursStr : String)
    (svc : String → Int → Except String (List ReviewResponse)) : HandlerResult :=
  if id = "" then HandlerResult.badRequest "Missing id query parameter"
  else if hoursStr = "" then
    match svc id 0 with
    | Except.error e => HandlerResult.serverError e
    | Except.ok revs => HandlerResult.ok revs
  else
    match goAtoi hoursStr with
    | none => HandlerResult.badRequest "Invalid hours parameter"
    | some h =>
      if h < 0 then HandlerResult.badRequest "Invalid hours parameter"
      else
        match svc id h with
        | Except.error e => HandlerResult.serverError e
        | Except.ok revs => HandlerResult.ok revs

/-- A JSON document (model of the values `encoding/json` operates on). -/
inductive Json where
  | null : Json
  | bool : Bool → Json
  | num : Int → Json
  | str : String → Json
  | arr : List Json → Json
  | obj : List (String × Json) → Json

/-- Field lookup in a JSON object body. -/
def getField : List (String × Json) → String → Option Json
  | [], _ => none
  | (k, v) :: rest, key => if k = key then some v else getField rest key

/-- Go `json.Unmarshal` of a JSON value into a `string` field: an absent or
`null` value leaves the zero value; a string is taken verbatim; any other
kind is a type error. -/
def decodeStrField : Option Json → Except String String
  | none => Except.ok ""
  | some Json.null => Except.ok ""
  | some (Json.str s) => Except.ok s
  | some _ => Except.error "cannot unmarshal into string"

/-- Go `json.Unmarshal` of a JSON value into an anonymous `attributes` struct:
absent or `null` leaves zeros; an object exposes its fields; otherwise a type
error. -/
def decodeAttrsObj : Option Json → Except String (Option (List (String × Json)))
  | none => Except.ok none
  | some Json.null => Except.ok none
  | some (Json.obj kvs) => Except.ok (some kvs)
  | some _ => Except.error "cannot unmarshal into attributes struct"

/-- Embeds `models.LabelField` (`{ Label string }`). -/
structure LabelField where
  Label : String

/-- Embeds `models.Image`; `Height` flattens `Attributes.Height`. -/
structure Image where
  Label : String
  Height : String

/-- Embeds `models.Price`; `Amount`/`Currency` flatten the attributes. -/
structure Price where
  Label : String
  Amount : String
  Currency : String

/-- Embeds `models.ContentType`; `Term`/`Label` flatten the attributes. -/
structure ContentType where
  Term : String
  Label : String

/-- Embeds `models.AppID`; `ID`/`BundleID` flatten attributes `im:id` /
`im:bundleId`. -/
structure AppID where
  Label : String
  ID : String
  BundleID : String

/-- Embeds `models.Artist`; `Href` flattens `Attributes.Href`. -/
structure Artist where
  Label : String
  Href : String

/-- Embeds `models.Category`; all four fields flatten the attributes. -/
structure Category where
  ID : String
  Term : String
  Scheme : String
  Label : String

/-- Embeds `models.ReleaseDate`; `AttrLabel` flattens `Attributes.Label`. -/
structure ReleaseDate where
  Label : String
  AttrLabel : String

/-- Embeds `models.Link`; the six fields flatten the attributes struct
(`Ty` stands for the Go field `Type`, a reserved word in Lean). -/
structure Link where
  Rel : String
  Ty : String
  Href : String
  Title : String
  IMDuration : String
  IMAssetType : String

/-- The zero value of `Link`. -/
def zeroLink : Link := ⟨"", "", "", "", "", ""⟩

/-- Embeds `models.App`.  `LinkRaw` holds the raw `link` JSON
(`json.RawMessage`; `none` is a nil raw message), `LinkSingle`/`LinkMulti`
are the `json:"-"` fields filled by `UnmarshalJSON`. -/
structure App where
  IMName : LabelField
  IMImages : List Image
  Summary : LabelField
  IMPrice : Price
  IMContentType : ContentType
  Rights : LabelField
  Title : LabelField
  LinkRaw : Option Json
  LinkSingle : Link
  LinkMulti : List Link
  ID : AppID
  IMArtist : Artist
  Category : Category
  IMReleaseDate : ReleaseDate

/-- The zero value of `App`. -/
def zeroApp : App :=
  { IMName := ⟨""⟩, IMImages := [], Summary := ⟨""⟩, IMPrice := ⟨"", "", ""⟩,
    IMContentType := ⟨"", ""⟩, Rights := ⟨""⟩, Title := ⟨""⟩,
    LinkRaw := none, LinkSingle := zeroLink, LinkMulti := [],
    ID := ⟨"", "", ""⟩, IMArtist := ⟨"", ""⟩, Category := ⟨"", "", "", ""⟩,
    IMReleaseDate := ⟨"", ""⟩ }

/-- Embeds `models.AppResponse`. -/
structure AppResponse where
  ID : String
  AppID : String
  BundleID : String
  Author : String
  ReleaseDate : String
  Name : String
  Category : String
  ArtworkURL : String
  URL : String
  Summary : String
  Price : String
  Rights : String
  Title : String

/-- Go unmarshal of one JSON value into `LabelField`. -/
def decodeLabelField : Option Json → Except String LabelField
  | none => Except.ok ⟨""⟩
  | some Json.null => Except.ok ⟨""⟩
  | some (Json.obj kvs) =>
    match decodeStrField (getField kvs "label") with
    | Except.error e => Except.error e
    | Except.ok l => Except.ok ⟨l⟩
  | some _ => Except.error "cannot unmarshal into LabelField"

/-- Go unmarshal of one JSON value into `Image`. -/
def decodeImage : Json → Except String Image
  | Json.null => Except.ok ⟨"", ""⟩
  | Json.obj kvs =>
    match decodeStrField (getField kvs "label") with
    | Except.error e => Except.error e
    | Except.ok label =>
      match decodeAttrsObj (getField kvs "attributes") with
      | Except.error e => Except.error e
      | Except.ok none => Except.ok ⟨label, ""⟩
      | Except.ok (some akvs) =>
        match decodeStrField (getField akvs "height") with
        | Except.error e => Except.error e
        | Except.ok h => Except.ok ⟨label, h⟩
  | _ => Except.error "cannot unmarshal into Image"

/-- Element-wise Go unmarshal of a JSON array body into `[]Image`. -/
def decodeImages : List Json → Except String (List Image)
  | [] => Except.ok []
  | j :: rest =>
    match decodeImage j with
    | Except.error e => Except.error e
    | Except.ok i =>
      match decodeImages rest with
      | Except.error e => Except.error e
      | Except.ok is => Except.ok (i :: is)

/-- Go unmarshal of one JSON value into `[]Image`. -/
def decodeImageList : Option Json → Except String (List Image)
  | none => Except.ok []
  | some Json.null => Except.ok []
  | some (Json.arr js) => decodeImages js
  | some _ => Except.error "cannot unmarshal into Image slice"

/-- Go unmarshal of one JSON value into `Price`. -/
def decodePrice : Option Json → Except String Price
  | none => Except.ok ⟨"", "", ""⟩
  | some Json.null => Except.ok ⟨"", "", ""⟩
  | some (Json.obj kvs) =>
    match decodeStrField (getField kvs "label") with
    | Except.error e => Except.error e
    | Except.ok label =>
      match decodeAttrsObj (getField kvs "attributes") with
      | Except.error e => Except.error e
      | Except.ok none => Except.ok ⟨label, "", ""⟩
      | Except.ok (some akvs) =>
        match decodeStrField (getField akvs "amount") with
        | Except.error e => Except.error e
        | Except.ok am =>
          match decodeStrField (getField akvs "currency") with
          | Except.error e => Except.error e
          | Except.ok cur => Except.ok ⟨label, am, cur⟩
  | some _ => Except.error "cannot unmarshal into Price"

/-- Go unmarshal of one JSON value into `ContentType`. -/
def decodeContentType : Option Json → Except String ContentType
  | none => Except.ok ⟨"", ""⟩
  | some Json.null => Except.ok ⟨"", ""⟩
  | some (Json.obj kvs) =>
    match decodeAttrsObj (getField kvs "attributes") with
    | Except.error e => Except.error e
    | Except.ok none => Except.ok ⟨"", ""⟩
    | Except.ok (some akvs) =>
      match decodeStrField (getField akvs "term") with
      | Except.error e => Except.error e
      | Except.ok t =>
        match decodeStrField (getField akvs "label") with
        | Except.error e => Except.error e
        | Except.ok l => Except.ok ⟨t, l⟩
  | some _ => Except.error "cannot unmarshal into ContentType"

/-- Go unmarshal of one JSON value into `AppID`. -/
def decodeAppID : Option Json → Except String AppID
  | none => Except.ok ⟨"", "", ""⟩
  | some Json.null => Except.ok ⟨"", "", ""⟩
  | some (Json.obj kvs) =>
    match decodeStrField (getField kvs "label") with
    | Except.error e => Except.error e
    | Except.ok label =>
      match decodeAttrsObj (getField kvs "attributes") with
      | Except.error e => Except.error e
      | Except.ok none => Except.ok ⟨label, "", ""⟩
      | Except.ok (some akvs) =>
        match decodeStrField (getField akvs "im:id") with
        | Except.error e => Except.error e
        | Except.ok i =>
          match decodeStrField (getField akvs "im:bundleId") with
          | Except.error e => Except.error e
          | Except.ok b => Except.ok ⟨label, i, b⟩
  | some _ => Except.error "cannot unmarshal into AppID"

/-- Go unmarshal of one JSON value into `Artist`. -/
def decodeArtist : Option Json → Except String Artist
  | none => Except.ok ⟨"", ""⟩
  | some Json.null => Except.ok ⟨"", ""⟩
  | some (Json.obj kvs) =>
    match decodeStrField (getField kvs "label") with
    | Except.error e => Except.error e
    | Except.ok label =>
      match decodeAttrsObj (getField kvs "attributes") with
      | Except.error e => Except.error e
      | Except.ok none => Except.ok ⟨label, ""⟩
      | Except.ok (some akvs) =>
        match decodeStrField (getField akvs "href") with
        | Except.error e => Except.error e
        | Except.ok h => Except.ok ⟨label, h⟩
  | some _ => Except.error "cannot unmarshal into Artist"

/-- Go unmarshal of one JSON value into `Category`. -/
def decodeCategory : Option Json → Except String Category
  | none => Except.ok ⟨"", "", "", ""⟩
  | some Json.null => Except.ok ⟨"", "", "", ""⟩
  | some (Json.obj kvs) =>
    match decodeAttrsObj (getField kvs "attributes") with
    | Except.error e => Except.error e
    | Except.ok none => Except.ok ⟨"", "", "", ""⟩
    | Except.ok (some akvs) =>
      match decodeStrField (getField akvs "im:id") with
      | Except.error e => Except.error e
      | Except.ok i =>
        match decodeStrField (getField akvs "term") with
        | Except.error e => Except.error e
        | Except.ok t =>
          match decodeStrField (getField akvs "scheme") with
          | Except.error e => Except.error e
          | Except.ok sc =>
            match decodeStrField (getField akvs "label") with
            | Except.error e => Except.error e
            | Except.ok l => Except.ok ⟨i, t, sc, l⟩
  | some _ => Except.error "cannot unmarshal into Category"

/-- Go unmarshal of one JSON value into `ReleaseDate`. -/
def decodeReleaseDate : Option Json → Except String ReleaseDate
  | none => Except.ok ⟨"", ""⟩
  | some Json.null => Except.ok ⟨"", ""⟩
  | some (Json.obj kvs) =>
    match decodeStrField (getField kvs "label") with
    | Except.error e => Except.error e
    | Except.ok label =>
      match decodeAttrsObj (getField kvs "attributes") with
      | Except.error e => Except.error e
      | Except.ok none => Except.ok ⟨label, ""⟩
      | Except.ok (some akvs) =>
        match decodeStrField (getField akvs "label") with
        | Except.error e => Except.error e
        | Except.ok l => Except.ok ⟨label, l⟩
  | some _ => Except.error "cannot unmarshal into ReleaseDate"

/-- Go `json.Unmarshal` of one JSON value into `Link` (the first attempt in
`App.UnmarshalJSON`): succeeds on an object or `null`, fails on any other
kind, in particular on an array. -/
def decodeLink : Json → Except String Link
  | Json.null => Except.ok zeroLink
  | Json.obj kvs =>
    match decodeAttrsObj (getField kvs "attributes") with
    | Except.error e => Except.error e
    | Except.ok none => Except.ok zeroLink
    | Except.ok (some akvs) =>
      match decodeStrField (getField akvs "rel") with
      | Except.error e => Except.error e
      | Except.ok rel =>
        match decodeStrField (getField akvs "type") with
        | Except.error e => Except.error e
        | Except.ok ty =>
          match decodeStrField (getField akvs "href") with
          | Except.error e => Except.error e
          | Except.ok href =>
            match decodeStrField (getField akvs "title") with
            | Except.error e => Except.error e
            | Except.ok ti =>
              match decodeStrField (getField akvs "im:duration") with
              | Except.error e => Except.error e
              | Except.ok du =>
                match decodeStrField (getField akvs "im:assetType") with
                | Except.error e => Except.error e
                | Except.ok asst => Except.ok ⟨rel, ty, href, ti, du, asst⟩
  | _ => Except.error "cannot unmarshal into Link"

/-- Element-wise Go unmarshal of a JSON array body into `[]Link`. -/
def decodeLinks : List Json → Except String (List Link)
  | [] => Except.ok []
  | j :: rest =>
    match decodeLink j with
    | Except.error e => Except.error e
    | Except.ok l =>
      match decodeLinks rest with
      | Except.error e => Except.error e
      | Except.ok ls => Except.ok (l :: ls)

/-- Go `json.Unmarshal` of one JSON value into `[]Link` (the second attempt
in `App.UnmarshalJSON`): succeeds on an array or `null`, fails otherwise. -/
def decodeLinkList : Json → Except String (List Link)
  | Json.null => Except.ok []
  | Json.arr js => decodeLinks js
  | _ => Except.error "cannot unmarshal into Link slice"

/-- The field-decoding step of `App.UnmarshalJSON` (the `aux` unmarshal):
every field except the resolved link is decoded from the object body; the raw
`link` value is recorded unparsed in `LinkRaw` (`none` when the key is
absent, matching a nil `json.RawMessage`). -/
def unmarshalAppCore (kvs : List (String × Json)) (linkRaw : Option Json) :
    Except String App :=
  match decodeLabelField (getField kvs "im:name") with
  | Except.error e => Except.error e
  | Except.ok imName =>
  match decodeImageList (getField kvs "im:image") with
  | Except.error e => Except.error e
  | Except.ok imImages =>
  match decodeLabelField (getField kvs "summary") with
  | Except.error e => Except.error e
  | Except.ok summary =>
  match decodePrice (getField kvs "im:price") with
  | Except.error e => Except.error e
  | Except.ok imPrice =>
  match decodeContentType (getField kvs "im:contentType") with
  | Except.error e => Except.error e
  | Except.ok imContentType =>
  match decodeLabelField (getField kvs "rights") with
  | Except.error e => Except.error e
  | Except.ok rights =>
  match decodeLabelField (getField kvs "title") with
  | Except.error e => Except.error e
  | Except.ok title =>
  match decodeAppID (getField kvs "id") with
  | Except.error e => Except.error e
  | Except.ok idv =>
  match decodeArtist (getField kvs "im:artist") with
  | Except.error e => Except.error e
  | Except.ok imArtist =>
  match decodeCategory (getField kvs "category") with
  | Except.error e => Except.error e
  | Except.ok category =>
  match decodeReleaseDate (getField kvs "im:releaseDate") with
  | Except.error e => Except.error e
  | Except.ok imReleaseDate =>
    Except.ok { IMName := imName, IMImages := imImages, Summary := summary,
                IMPrice := imPrice, IMContentType := imContentType,
                Rights := rights, Title := title,
                LinkRaw := linkRaw, LinkSingle := zeroLink, LinkMulti := [],
                ID := idv, IMArtist := imArtist, Category := category,
                IMReleaseDate := imReleaseDate }

/-- Go unmarshal of a JSON value into the `App` alias struct (all fields
except link resolution). -/
def unmarshalAppFields : Json → Except String App
  | Json.null => Except.ok zeroApp
  | Json.obj kvs => unmarshalAppCore kvs (getField kvs "link")
  | _ => Except.error "cannot unmarshal into App"

/-- The link-resolution step of `App.UnmarshalJSON` (lines 410-425): try the
raw link as a single `Link`; on failure try it as `[]Link`; if both attempts
fail the record is a decode failure.  A nil raw message fails both attempts
(Go errors on empty input). -/
def resolveLink (a : App) : Except String App :=
  match a.LinkRaw with
  | none => Except.error "failed to unmarshal link field"
  | some raw =>
    match decodeLink raw with
    | Except.ok l => Except.ok { a with LinkSingle := l }
    | Except.error _ =>
      match decodeLinkList raw with
      | Except.ok ls => Except.ok { a with LinkMulti := ls }
      | Except.error _ => Except.error "failed to unmarshal link field"

/-- Embeds `models.App.UnmarshalJSON`: decode all plain fields, then resolve
the polymorphic `link` field. -/
def App.UnmarshalJSON (j : Json) : Except String App :=
  match unmarshalAppFields j with
  | Except.error e => Except.error e
  | Except.ok aux => resolveLink aux

/-- The canonical-link test of `App.ToAppResponse`:
`rel == "alternate" && type == "text/html"`. -/
def canonicalLink (l : Link) : Bool :=
  l.Rel == "alternate" && l.Ty == "text/html"

/-- Embeds `models.App.ToAppResponse`: artwork is the first image label (or
empty), the URL scans `LinkMulti` when non-empty (first canonical link wins,
empty when none) and otherwise falls back to `LinkSingle`; the error result
is always nil in the source. -/
def App.ToAppResponse (a : App) : Except String AppResponse :=
  let artworkURL : String :=
    match a.IMImages with
    | [] => ""
    | img :: _ => img.Label
  let appURL : String :=
    if a.LinkMulti.length > 0 then
      match a.LinkMulti.find? canonicalLink with
      | some l => l.Href
      | none => ""
    else if a.LinkSingle.Rel == "alternate" && a.LinkSingle.Ty == "text/html" then
      a.LinkSingle.Href
    else ""
  Except.ok { ID := a.ID.ID, AppID := a.ID.ID, BundleID := a.ID.BundleID,
              Author := a.IMArtist.Label, ReleaseDate := a.IMReleaseDate.AttrLabel,
              Name := a.IMName.Label, Category := a.Category.Label,
              ArtworkURL := artworkURL, URL := appURL,
              Summary := a.Summary.Label, Price := a.IMPrice.Label,
              Rights := a.Rights.Label, Title := a.Title.Label }

/-- The sequence of links `App.UnmarshalJSON` resolved for an entry: the
array when the array shape was decoded, otherwise the single link. -/
def resolvedLinks (a : App) : List Link :=
  if a.LinkMulti.isEmpty then [a.LinkSingle] else a.LinkMulti

/-- Default Go marshal of `LabelField`. -/
def marshalLabelField (lf : LabelField) : Json :=
  Json.obj [("label", Json.str lf.Label)]

/-- Default Go marshal of `Image`. -/
def marshalImage (i : Image) : Json :=
  Json.obj [("label", Json.str i.Label),
            ("attributes", Json.obj [("height", Json.str i.Height)])]

/-- Default Go marshal of `Price`. -/
def marshalPrice (p : Price) : Json :=
  Json.obj [("label", Json.str p.Label),
            ("attributes", Json.obj [("amount", Json.str p.Amount),
                                     ("currency", Json.str p.Currency)])]

/-- Default Go marshal of `ContentType`. -/
def marshalContentType (c : ContentType) : Json :=
  Json.obj [("attributes", Json.obj [("term", Json.str c.Term),
                                     ("label", Json.str c.Label)])]

/-- Default Go marshal of `AppID`. -/
def marshalAppID (i : AppID) : Json :=
  Json.obj [("label", Json.str i.Label),
            ("attributes", Json.obj [("im:id", Json.str i.ID),
                                     ("im:bundleId", Json.str i.BundleID)])]

/-- Default Go marshal of `Artist`. -/
def marshalArtist (ar : Artist) : Json :=
  Json.obj [("label", Json.str ar.Label),
            ("attributes", Json.obj [("href", Json.str ar.Href)])]

/-- Default Go marshal of `Category`. -/
def marshalCategory (c : Category) : Json :=
  Json.obj [("attributes", Json.obj [("im:id", Json.str c.ID),
                                     ("term", Json.str c.Term),
                                     ("scheme", Json.str c.Scheme),
                                     ("label", Json.str c.Label)])]

/-- Default Go marshal of `ReleaseDate`. -/
def marshalReleaseDate (rd : ReleaseDate) : Json :=
  Json.obj [("label", Json.str rd.Label),
            ("attributes", Json.obj [("label", Json.str rd.AttrLabel)])]

/-- Marshal of the stored raw link (`json.RawMessage` writes its bytes
verbatim; a nil raw message marshals as `null`). -/
def marshalLinkRaw : Option Json → Json
  | some r => r
  | none => Json.null

/-- Default Go marshal of `App` (no custom `MarshalJSON`): every tagged field
in declaration order; `LinkSingle`/`LinkMulti` are `json:"-"` and omitted. -/
def marshalApp (a : App) : Json :=
  Json.obj [("im:name", marshalLabelField a.IMName),
            ("im:image", Json.arr (a.IMImages.map marshalImage)),
            ("summary", marshalLabelField a.Summary),
            ("im:price", marshalPrice a.IMPrice),
            ("im:contentType", marshalContentType a.IMContentType),
            ("rights", marshalLabelField a.Rights),
            ("title", marshalLabelField a.Title),
            ("link", marshalLinkRaw a.LinkRaw),
            ("id", marshalAppID a.ID),
            ("im:artist", marshalArtist a.IMArtist),
            ("category", marshalCategory a.Category),
            ("im:releaseDate", marshalReleaseDate a.IMReleaseDate)]

/-- Go marshal of `[]App` (what `saveDataToFile` writes). -/
def marshalApps (apps : List App) : Json :=
  Json.arr (apps.map marshalApp)

/-- Element-wise Go unmarshal of a JSON array body into `[]App` (each element
goes through the custom `App.UnmarshalJSON`). -/
def unmarshalAppElems : List Json → Except String (List App)
  | [] => Except.ok []
  | j :: rest =>
    match App.UnmarshalJSON j with
    | Except.error e => Except.error e
    | Except.ok a =>
      match unmarshalAppElems rest with
      | Except.error e => Except.error e
      | Except.ok as => Except.ok (a :: as)

/-- Go `json.Unmarshal` of a document into `[]App` (what `loadAppsFromFile`
does with the file contents). -/
def unmarshalApps : Json → Except String (List App)
  | Json.null => Except.ok []
  | Json.arr js => unmarshalAppElems js
  | _ => Except.error "cannot unmarshal into App slice"

/-- Embeds `services.saveDataToFile` specialised to `[]App`: the file system
is a map from paths to stored JSON documents; saving writes the marshalled
array at the given path. -/
def saveDataToFile (apps : List App) (filename : String)
    (fs : String → Option Json) : String → Option Json :=
  fun p => if p = filename then some (marshalApps apps) else fs p

/-- Embeds `services.loadAppsFromFile`: read the file (missing file is an
error) and unmarshal the contents into `[]App`. -/
def loadAppsFromFile (fs : String → Option Json) (filename : String) :
    Except String (List App) :=
  match fs filename with
  | none => Except.error "failed to read file"
  | some j => unmarshalApps j

/-- The value Go extracts from `app.ToAppResponse()` while discarding the
error (`response, _ := app.ToAppResponse()`); the error never occurs. -/
def appResponseOf (a : App) : AppResponse :=
  match a.ToAppResponse with
  | Except.ok r => r
  | Except.error _ => ⟨"", "", "", "", "", "", "", "", "", "", "", "", ""⟩

/-- Embeds `models.Root` (`Feed.Entries` flattened). -/
structure Root where
  Entries : List App

/-- Embeds `services.convertRootToAppResponse`. -/
def convertRootToAppResponse (root : Root) : List AppResponse :=
  root.Entries.map appResponseOf

/-- The upstream-fetch tail of `GetApps` (lines 56-91): the HTTP fetch,
status check, read and unmarshal are abstracted into `fetchResult`; an
upstream failure propagates, a success is converted. -/
def fetchAndConvert (fetchResult : Except String Root) :
    Except String (List AppResponse) :=
  match fetchResult with
  | Except.error e => Except.error e
  | Except.ok root => Except.ok (convertRootToAppResponse root)

/-- Embeds `services.AppService.GetApps`: when the cache file loads and the
loaded list is non-empty, the cached entries are mapped and returned;
otherwise (load error, or an empty loaded list) the upstream path runs. -/
def GetApps (loadResult : Except String (List App))
    (fetchResult : Except String Root) : Except String (List AppResponse) :=
  match loadResult with
  | Except.ok existingApps =>
    if existingApps.length ≠ 0 then
      Except.ok (existingApps.map appResponseOf)
    else fetchAndConvert fetchResult
  | Except.error _ => fetchAndConvert fetchResult

/-- The shape `App.UnmarshalJSON` guarantees of every value it produces: the
raw link is present and decodes by the single-link attempt into `LinkSingle`
(with `LinkMulti` empty), or fails that attempt and decodes by the array
attempt into `LinkMulti` (with `LinkSingle` zero). -/
def AppWellFormed (a : App) : Prop :=
  ∃ raw, a.LinkRaw = some raw ∧
    ((decodeLink raw = Except.ok a.LinkSingle ∧ a.LinkMulti = []) ∨
     ((∃ e, decodeLink raw = Except.error e) ∧
      decodeLinkList raw = Except.ok a.LinkMulti ∧ a.LinkSingle = zeroLink))

/-- Test fixture: a canonical (`alternate` / `text/html`) link value. -/
def cLink : Link := ⟨"alternate", "text/html", "https://example.com/app", "", "", ""⟩

/-- Test fixture: the JSON object that decodes to `cLink`. -/
def cLinkJson : Json :=
  Json.obj [("attributes",
    Json.obj [("rel", Json.str "alternate"), ("type", Json.str "text/html"),
              ("href", Json.str "https://example.com/app")])]

/-- Test fixture: the field-decode result of an entry whose only field is the
link `cLinkJson`. -/
def cAppFields : App := { zeroApp with LinkRaw := some cLinkJson }

/-- Test fixture: a decoded catalog entry (single-link shape). -/
def cAppSingle : App :=
  { zeroApp with LinkRaw := some cLinkJson, LinkSingle := cLink }

/-- Test fixture: a review with parseable timestamp and rating. -/
def cReviewGood : Review := ⟨"1", "alice", "great app", "5", "2025-08-21T10:00:00Z"⟩

/-- Test fixture: the response `cReviewGood` converts to. -/
def cRespGood : ReviewResponse := ⟨"1", "great app", "alice", 5, "2025-08-21T10:00:00Z"⟩

/-- Test fixture: a review whose timestamp is not RFC3339. -/
def cReviewBadTime : Review := ⟨"2", "bob", "meh", "4", "not-a-timestamp"⟩

/-- Test fixture: the response `cReviewBadTime` converts to. -/
def cRespBadTime : ReviewResponse := ⟨"2", "meh", "bob", 4, "not-a-timestamp"⟩

/-- Test fixture: a review whose rating label is not numeric. -/
def cReviewBadRating : Review := ⟨"3", "carol", "bad", "five", "2025-08-21T11:00:00Z"⟩

/-- Test fixture: a reference instant (2025-08-21 10:30 UTC in model
nanoseconds). -/
def cNow : Int := (parseRFC3339 "2025-08-21T10:30:00Z").getD 0

/-- Test fixture: a review service that always succeeds with an empty list. -/
def cSvc : String → Int → Except String (List ReviewResponse) :=
  fun _ _ => Except.ok []


/-- The converted response carries the review timestamp through unchanged. -/
theorem toReviewResponse_time (r : Review) (resp : ReviewResponse)
    (h : r.ToReviewResponse = Except.ok resp) : resp.Time = r.Timestamp := by
  unfold Review.ToReviewResponse at h
  cases hg : goAtoi r.Rating with
  | none => rw [hg] at h; exact absurd h (by simp)
  | some score => rw [hg] at h; cases h; rfl

/-- Every response in a successful batch conversion comes from some input
review. -/
theorem convertReviews_ok_mem (rs : List Review) (l : List ReviewResponse)
    (h : convertReviews rs = Except.ok l) :
    ∀ resp ∈ l, ∃ r ∈ rs, r.ToReviewResponse = Except.ok resp := by
  induction rs generalizing l with
  | nil =>
    cases h
    intro resp hresp
    exact absurd hresp (by simp)
  | cons r rest ih =>
    unfold convertReviews at h
    cases hc : r.ToReviewResponse with
    | error e => rw [hc] at h; exact absurd h (by simp)
    | ok resp0 =>
      rw [hc] at h
      cases hrest : convertReviews rest with
      | error e => rw [hrest] at h; exact absurd h (by simp)
      | ok l0 =>
        rw [hrest] at h
        cases h
        intro resp hresp
        rcases List.mem_cons.mp hresp with heq | hmem
        · exact ⟨r, by simp, heq ▸ hc⟩
        · obtain ⟨r', hr', hc'⟩ := ih l0 hrest resp hmem
          exact ⟨r', by simp [hr'], hc'⟩

/-- One review with a non-numeric rating label aborts the whole batch. -/
theorem convertReviews_error_of_bad (rs : List Review)
    (h : ∃ r ∈ rs, goAtoi r.Rating = none) :
    ∃ e, convertReviews rs = Except.error e := by
  induction rs with
  | nil => obtain ⟨r, hr, _⟩ := h; exact absurd hr (by simp)
  | cons r rest ih =>
    obtain ⟨rb, hrb, hbad⟩ := h
    rcases List.mem_cons.mp hrb with heq | hmem
    · subst heq
      refine ⟨"failed to convert rating to integer", ?_⟩
      unfold convertReviews Review.ToReviewResponse
      rw [hbad]
    · obtain ⟨e, he⟩ := ih ⟨rb, hmem, hbad⟩
      unfold convertReviews
      cases hc : r.ToReviewResponse with
      | error e0 => exact ⟨e0, rfl⟩
      | ok resp => exact ⟨e, by rw [he]⟩

/-- The filter predicate holds exactly on reviews whose timestamp parses to
an instant strictly after the cutoff. -/
theorem keepRecent_iff (cutoff : Int) (r : Review) :
    keepRecent cutoff r = true ↔
      ∃ t, parseRFC3339 r.Timestamp = some t ∧ cutoff < t := by
  unfold keepRecent
  cases hp : parseRFC3339 r.Timestamp with
  | none => simp
  | some t => simp

/-- C1 (counterexample): with window 0, `GetReviews` performs no timestamp
filtering at all, so a review whose timestamp does not parse as RFC3339 is
returned, contradicting the claim that unparseable reviews are excluded for
every window value including 0. -/
theorem c1_counterexample :
    GetReviews [cReviewBadTime] 0 0 = Except.ok [cRespBadTime] ∧
    parseRFC3339 cRespBadTime.Time = none :=
  ⟨rfl, rfl⟩

/-- C1 (amended): for every non-zero window, every review returned by
`GetReviews` has a timestamp that parses as RFC3339; with window 0 the
unfiltered conversion path runs instead. -/
theorem c1_amended_theorem (reviews : List Review) (now hours : Int)
    (l : List ReviewResponse) (hh : hours ≠ 0)
    (hres : GetReviews reviews now hours = Except.ok l) :
    ∀ resp ∈ l, (parseRFC3339 resp.Time).isSome = true := by
  intro resp hresp
  have h1 : convertReviews
      (recentReviews reviews (now + int64Wrap (-hours * nanosPerGoHour))) =
      Except.ok l := by
    unfold GetReviews at hres
    rwa [if_neg hh] at hres
  obtain ⟨r, hrmem, hconv⟩ := convertReviews_ok_mem _ _ h1 resp hresp
  have hkeep : keepRecent (now + int64Wrap (-hours * nanosPerGoHour)) r = true :=
    (List.mem_filter.mp hrmem).2
  obtain ⟨t, hparse, _⟩ := (keepRecent_iff _ _).mp hkeep
  rw [toReviewResponse_time r resp hconv, hparse]
  rfl

/-- C1 (witness): a concrete run of the amended statement. -/
theorem c1_amended_witness :
    ((1 : Int) ≠ 0 ∧ GetReviews [cReviewGood] cNow 1 = Except.ok [cRespGood]) ∧
    ∀ resp ∈ [cRespGood], (parseRFC3339 resp.Time).isSome = true :=
  ⟨⟨by decide, rfl⟩,
   c1_amended_theorem [cReviewGood] cNow 1 [cRespGood] (by decide) rfl⟩

/-- C2: a review list containing a review whose rating label does not parse
as a base-10 integer makes the whole conversion fail, and `GetReviews`
(window 0, so that no review is filtered away) returns an error and no
partial result. -/
theorem c2_theorem (reviews : List Review) (now : Int)
    (h : ∃ r ∈ reviews, goAtoi r.Rating = none) :
    (∃ e, convertReviews reviews = Except.error e) ∧
    (∃ e, GetReviews reviews now 0 = Except.error e) := by
  obtain ⟨e, he⟩ := convertReviews_error_of_bad reviews h
  exact ⟨⟨e, he⟩, ⟨e, by unfold GetReviews; rw [if_pos rfl]; exact he⟩⟩

/-- C2 (witness): a concrete batch with one bad rating aborts. -/
theorem c2_witness :
    (∃ r ∈ [cReviewGood, cReviewBadRating], goAtoi r.Rating = none) ∧
    ((∃ e, convertReviews [cReviewGood, cReviewBadRating] = Except.error e) ∧
     (∃ e, GetReviews [cReviewGood, cReviewBadRating] cNow 0 = Except.error e)) :=
  ⟨⟨cReviewBadRating, by simp, rfl⟩,
   c2_theorem [cReviewGood, cReviewBadRating] cNow ⟨cReviewBadRating, by simp, rfl⟩⟩

/-- An in-range value is left unchanged by 64-bit wrapping. -/
theorem int64Wrap_eq_self (x : Int) (h1 : -9223372036854775808 ≤ x)
    (h2 : x < 9223372036854775808) : int64Wrap x = x := by
  have e1 : (2 : Int) ^ 63 = 9223372036854775808 := by norm_num
  have e2 : (2 : Int) ^ 64 = 18446744073709551616 := by norm_num
  unfold int64Wrap
  rw [e1, e2]
  omega

/-- C3 (counterexample): the claim fails for the reachable window
`hours = 3000000` (it passes `strconv.Atoi` and the negativity check): the
source computes `time.Duration(-hours) * time.Hour`, whose int64
multiplication wraps to about +242 years, so the cutoff lands in the future
and a review strictly after `T - H` hours (here about year 1683) is excluded
rather than returned. -/
theorem c3_counterexample :
    (0 : Int) < 3000000 ∧
    (parseRFC3339 cReviewGood.Timestamp).isSome = true ∧
    cNow - 3000000 * nanosPerGoHour < (parseRFC3339 cReviewGood.Timestamp).getD 0 ∧
    GetReviews [cReviewGood] cNow 3000000 = Except.ok [] :=
  ⟨by decide, by decide, by decide, rfl⟩

/-- C3 (amended): for a positive window of at most 2562047 hours (the largest
whole-hour count whose duration fits int64 nanoseconds, so the duration
multiplication does not wrap), `GetReviews` converts exactly the sublist of
reviews whose parsed timestamp is strictly after `now - hours` hours;
membership in that sublist is characterised by the strict cutoff comparison
(so excluded parseable reviews are at or before the cutoff), and upstream
order is preserved. -/
theorem c3_theorem (reviews : List Review) (now hours : Int) (h : 0 < hours)
    (hb : hours ≤ 2562047) :
    GetReviews reviews now hours =
      convertReviews (recentReviews reviews (now - hours * nanosPerGoHour))
  ∧ (∀ r, r ∈ recentReviews reviews (now - hours * nanosPerGoHour) ↔
      r ∈ reviews ∧ ∃ t, parseRFC3339 r.Timestamp = some t ∧
        now - hours * nanosPerGoHour < t)
  ∧ List.Sublist (recentReviews reviews (now - hours * nanosPerGoHour)) reviews := by
  have hw : now + int64Wrap (-hours * nanosPerGoHour) =
      now - hours * nanosPerGoHour := by
    rw [int64Wrap_eq_self (-hours * nanosPerGoHour)
      (by unfold nanosPerGoHour; omega) (by unfold nanosPerGoHour; omega)]
    ring
  refine ⟨?_, ?_, ?_⟩
  · unfold GetReviews
    rw [if_neg (by omega), hw]
  · intro r
    unfold recentReviews
    rw [List.mem_filter, keepRecent_iff]
  · exact List.filter_sublist _

/-- C3 (witness): a concrete run with a one-hour window. -/
theorem c3_witness :
    ((0 : Int) < 1 ∧ (1 : Int) ≤ 2562047) ∧
    (GetReviews [cReviewGood, cReviewBadTime] cNow 1 =
       convertReviews (recentReviews [cReviewGood, cReviewBadTime] (cNow - 1 * nanosPerGoHour))
     ∧ (∀ r, r ∈ recentReviews [cReviewGood, cReviewBadTime] (cNow - 1 * nanosPerGoHour) ↔
         r ∈ [cReviewGood, cReviewBadTime] ∧ ∃ t, parseRFC3339 r.Timestamp = some t ∧
           cNow - 1 * nanosPerGoHour < t)
     ∧ List.Sublist (recentReviews [cReviewGood, cReviewBadTime] (cNow - 1 * nanosPerGoHour))
         [cReviewGood, cReviewBadTime]) :=
  ⟨⟨by decide, by decide⟩,
   c3_theorem [cReviewGood, cReviewBadTime] cNow 1 (by decide) (by decide)⟩

/-- C7: the reviews handler answers 400 exactly when `id` is missing or
`hours` is present but fails `strconv.Atoi` or is negative; an absent `hours`
is treated as 0 and the request proceeds to the service. -/
theorem c7_theorem (id hoursStr : String)
    (svc : String → Int → Except String (List ReviewResponse)) :
    ((∃ m, AppReviewsHandler id hoursStr svc = HandlerResult.badRequest m) ↔
      (id = "" ∨ (hoursStr ≠ "" ∧ (goAtoi hoursStr = none ∨
        ∃ h, goAtoi hoursStr = some h ∧ h < 0))))
  ∧ (id ≠ "" → hoursStr = "" →
      AppReviewsHandler id hoursStr svc =
        match svc id 0 with
        | Except.error e => HandlerResult.serverError e
        | Except.ok revs => HandlerResult.ok revs) := by
  constructor
  · by_cases hid : id = ""
    · simp [AppReviewsHandler, hid]
    · by_cases hhs : hoursStr = ""
      · subst hhs
        cases hsvc : svc id 0 <;> simp [AppReviewsHandler, hid, hsvc]
      · cases hg : goAtoi hoursStr with
        | none => simp [AppReviewsHandler, hid, hhs, hg]
        | some hv =>
          by_cases hneg : hv < 0
          · simp [AppReviewsHandler, hid, hhs, hg, hneg]
          · cases hsvc : svc id hv <;>
              simp [AppReviewsHandler, hid, hhs, hg, hneg, hsvc]
  · intro hid hhs
    subst hhs
    simp [AppReviewsHandler, if_neg hid]

/-- C7 (witness): a request with `id` present and `hours` absent proceeds
with window 0. -/
theorem c7_witness :
    AppReviewsHandler "123" "" cSvc =
      match cSvc "123" 0 with
      | Except.error e => HandlerResult.serverError e
      | Except.ok revs => HandlerResult.ok revs :=
  ( c7_theorem "123" "" cSvc).2 (by decide) rfl

/-- Decoding the marshalled image list restores it. -/
theorem decodeImages_marshal (is : List Image) :
    decodeImages (is.map marshalImage) = Except.ok is := by
  induction is with
  | nil => rfl
  | cons i rest ih =>
    simp only [List.map_cons]
    unfold decodeImages
    rw [show decodeImage (marshalImage i) = Except.ok i from rfl, ih]

/-- Decoding the plain fields of a marshalled `App` restores them (the
resolved-link fields come back at their zero values, to be refilled by the
link-resolution step). -/
theorem unmarshalAppFields_marshal (a : App) :
    unmarshalAppFields (marshalApp a) =
      Except.ok { a with LinkSingle := zeroLink, LinkMulti := [],
                         LinkRaw := some (marshalLinkRaw a.LinkRaw) } := by
  have key : unmarshalAppFields (marshalApp a) =
      (match decodeImages (a.IMImages.map marshalImage) with
       | Except.error e => Except.error e
       | Except.ok imgs =>
         Except.ok { a with IMImages := imgs, LinkSingle := zeroLink, LinkMulti := [],
                            LinkRaw := some (marshalLinkRaw a.LinkRaw) }) := rfl
  rw [key, decodeImages_marshal]

/-- Inversion for the field-decoding step: the produced record carries the
given raw link, zero resolved-link fields, and the same field decode succeeds
for any other raw link value. -/
theorem unmarshalAppCore_shape (kvs : List (String × Json)) (lr : Option Json)
    (a : App) (h : unmarshalAppCore kvs lr = Except.ok a) :
    a.LinkRaw = lr ∧ a.LinkSingle = zeroLink ∧ a.LinkMulti = [] ∧
    ∀ lr2, unmarshalAppCore kvs lr2 = Except.ok { a with LinkRaw := lr2 } := by
  unfold unmarshalAppCore at h ⊢
  repeat' split at h
  all_goals cases h
  refine ⟨rfl, rfl, rfl, fun lr2 => ?_⟩
  simp_all

/-- The custom unmarshal of a marshalled well-formed `App` restores it. -/
theorem UnmarshalJSON_marshal (a : App) (hwf : AppWellFormed a) :
    App.UnmarshalJSON (marshalApp a) = Except.ok a := by
  obtain ⟨raw, hraw, hcase⟩ := hwf
  unfold App.UnmarshalJSON
  rw [unmarshalAppFields_marshal, hraw]
  show resolveLink { a with LinkSingle := zeroLink, LinkMulti := [],
                            LinkRaw := some raw } = Except.ok a
  unfold resolveLink
  rcases hcase with ⟨hd, hm⟩ | ⟨⟨e, he⟩, hl, hs⟩
  · simp only [hd]
    obtain ⟨f1, f2, f3, f4, f5, f6, f7, f8, f9, f10, f11, f12, f13, f14⟩ := a
    simp_all
  · simp only [he, hl]
    obtain ⟨f1, f2, f3, f4, f5, f6, f7, f8, f9, f10, f11, f12, f13, f14⟩ := a
    simp_all

/-- Element-wise unmarshal of a marshalled well-formed `[]App` restores it. -/
theorem unmarshalAppElems_marshal (apps : List App) :
    (∀ a ∈ apps, AppWellFormed a) →
    unmarshalAppElems (apps.map marshalApp) = Except.ok apps := by
  induction apps with
  | nil => intro _; rfl
  | cons a rest ih =>
    intro h
    simp only [List.map_cons]
    unfold unmarshalAppElems
    rw [UnmarshalJSON_marshal a (h a (by simp)), ih (fun x hx => h x (by simp [hx]))]

/-- Unmarshal of a marshalled well-formed `[]App` document restores it. -/
theorem unmarshalApps_marshal (apps : List App)
    (h : ∀ a ∈ apps, AppWellFormed a) :
    unmarshalApps (marshalApps apps) = Except.ok apps :=
  unmarshalAppElems_marshal apps h

/-- C4: for any decodable link object `j` (decoding to `l`) and any entry
whose remaining fields decode, the entry with link field `j` and the entry
with link field `[j]` both decode, and their mapped canonical URLs agree. -/
theorem c4_theorem (kvs : List (String × Json)) (j : Json) (l : Link) (a : App)
    (hj : decodeLink j = Except.ok l)
    (ha : unmarshalAppCore kvs (some j) = Except.ok a) :
    ∃ a1 a2 r1 r2,
      App.UnmarshalJSON (Json.obj (("link", j) :: kvs)) = Except.ok a1 ∧
      App.UnmarshalJSON (Json.obj (("link", Json.arr [j]) :: kvs)) = Except.ok a2 ∧
      a1.ToAppResponse = Except.ok r1 ∧ a2.ToAppResponse = Except.ok r2 ∧
      r1.URL = r2.URL := by
  obtain ⟨hraw, hsingle, hmulti, hcong⟩ := unmarshalAppCore_shape kvs (some j) a ha
  have h1 : App.UnmarshalJSON (Json.obj (("link", j) :: kvs)) =
      Except.ok { a with LinkSingle := l } := by
    have hfe : unmarshalAppFields (Json.obj (("link", j) :: kvs)) = Except.ok a := ha
    unfold App.UnmarshalJSON
    rw [hfe]
    unfold resolveLink
    simp only [hraw, hj]
  have h2 : App.UnmarshalJSON (Json.obj (("link", Json.arr [j]) :: kvs)) =
      Except.ok { a with LinkRaw := some (Json.arr [j]), LinkMulti := [l] } := by
    have hfe : unmarshalAppFields (Json.obj (("link", Json.arr [j]) :: kvs)) =
        Except.ok { a with LinkRaw := some (Json.arr [j]) } :=
      hcong (some (Json.arr [j]))
    unfold App.UnmarshalJSON
    rw [hfe]
    show resolveLink { a with LinkRaw := some (Json.arr [j]) } = _
    unfold resolveLink
    simp only [decodeLinkList, decodeLinks, hj]
    rfl
  refine ⟨{ a with LinkSingle := l },
          { a with LinkRaw := some (Json.arr [j]), LinkMulti := [l] },
          _, _, h1, h2, rfl, rfl, ?_⟩
  cases hb : (l.Rel == "alternate" && l.Ty == "text/html") <;>
    simp [App.ToAppResponse, hmulti, List.find?, canonicalLink, hb]

/-- C4 (witness): a concrete canonical link, as object and as singleton
array, yields the same URL. -/
theorem c4_witness :
    ∃ a1 a2 r1 r2,
      App.UnmarshalJSON (Json.obj (("link", cLinkJson) :: [])) = Except.ok a1 ∧
      App.UnmarshalJSON (Json.obj (("link", Json.arr [cLinkJson]) :: [])) = Except.ok a2 ∧
      a1.ToAppResponse = Except.ok r1 ∧ a2.ToAppResponse = Except.ok r2 ∧
      r1.URL = r2.URL :=
  c4_theorem [] cLinkJson cLink cAppFields rfl rfl

/-- C5: decoding an entry whose plain fields decode resolves the link field
by first attempting the single-object decode, then the array decode, and the
entry decode fails exactly when both attempts fail (a nil raw link fails both
attempts). -/
theorem c5_theorem (j : Json) (a : App)
    (hf : unmarshalAppFields j = Except.ok a) :
    App.UnmarshalJSON j = resolveLink a
  ∧ (∀ raw l, a.LinkRaw = some raw → decodeLink raw = Except.ok l →
      App.UnmarshalJSON j = Except.ok { a with LinkSingle := l })
  ∧ (∀ raw e ls, a.LinkRaw = some raw → decodeLink raw = Except.error e →
      decodeLinkList raw = Except.ok ls →
      App.UnmarshalJSON j = Except.ok { a with LinkMulti := ls })
  ∧ ((∃ e, App.UnmarshalJSON j = Except.error e) ↔
      (∀ raw, a.LinkRaw = some raw →
        (∃ e, decodeLink raw = Except.error e) ∧
        (∃ e, decodeLinkList raw = Except.error e))) := by
  have h1 : App.UnmarshalJSON j = resolveLink a := by
    unfold App.UnmarshalJSON
    rw [hf]
  refine ⟨h1, ?_, ?_, ?_⟩
  · intro raw l hraw hd
    rw [h1]
    unfold resolveLink
    simp only [hraw, hd]
  · intro raw e ls hraw hd hl
    rw [h1]
    unfold resolveLink
    simp only [hraw, hd, hl]
  · rw [h1]
    unfold resolveLink
    cases hraw : a.LinkRaw with
    | none => simp
    | some raw =>
      cases hd : decodeLink raw with
      | ok l => simp [hd]
      | error e0 =>
        cases hl : decodeLinkList raw with
        | ok ls => simp [hd, hl]
        | error e1 => simp [hd, hl]

/-- C5 (witness): an entry whose link field is `null` resolves through the
single-object attempt (Go decodes `null` into the zero `Link`). -/
theorem c5_witness :
    App.UnmarshalJSON (Json.obj [("link", Json.null)]) =
      Except.ok { zeroApp with LinkRaw := some Json.null } :=
  (c5_theorem (Json.obj [("link", Json.null)])
    { zeroApp with LinkRaw := some Json.null } rfl).2.1 Json.null zeroLink rfl rfl

/-- C6: for every entry, the mapped canonical URL is the href of the first
resolved link with relation `alternate` and media type `text/html`, and the
empty string when no resolved link matches. -/
theorem c6_theorem (a : App) :
    ∃ r, a.ToAppResponse = Except.ok r ∧
      r.URL = (match (resolvedLinks a).find? canonicalLink with
               | some l => l.Href
               | none => "") := by
  refine ⟨_, rfl, ?_⟩
  cases hm : a.LinkMulti with
  | nil =>
    cases hb : (a.LinkSingle.Rel == "alternate" && a.LinkSingle.Ty == "text/html") <;>
      simp [App.ToAppResponse, resolvedLinks, hm, List.find?, canonicalLink, hb]
  | cons x xs =>
    simp [App.ToAppResponse, resolvedLinks, hm]

/-- C8: saving a list of decoded catalog entries to a path and loading from
the same path restores exactly the original entries. -/
theorem c8_theorem (apps : List App) (fs : String → Option Json)
    (filename : String) (h : ∀ a ∈ apps, AppWellFormed a) :
    loadAppsFromFile (saveDataToFile apps filename fs) filename =
      Except.ok apps := by
  unfold loadAppsFromFile saveDataToFile
  rw [if_pos rfl]
  exact unmarshalApps_marshal apps h

/-- C8 (witness): a concrete one-entry round trip. -/
theorem c8_witness :
    (∀ a ∈ [cAppSingle], AppWellFormed a) ∧
    loadAppsFromFile (saveDataToFile [cAppSingle] "apps.json" (fun _ => none))
      "apps.json" = Except.ok [cAppSingle] := by
  have hwf : ∀ a ∈ [cAppSingle], AppWellFormed a := by
    intro a ha
    simp only [List.mem_singleton] at ha
    subst ha
    exact ⟨cLinkJson, rfl, Or.inl ⟨rfl, rfl⟩⟩
  exact ⟨hwf, c8_theorem [cAppSingle] (fun _ => none) "apps.json" hwf⟩

/-- C9: `GetApps` returns the mapped cached entries, untouched by the
upstream outcome, exactly when the cache loads a non-empty list; a load error
or an empty loaded list runs the upstream path. -/
theorem c9_theorem (loadResult : Except String (List App))
    (f1 f2 : Except String Root) :
    (∀ l, loadResult = Except.ok l → l ≠ [] →
        GetApps loadResult f1 = Except.ok (l.map appResponseOf) ∧
        GetApps loadResult f1 = GetApps loadResult f2)
  ∧ (loadResult = Except.ok [] → GetApps loadResult f1 = fetchAndConvert f1)
  ∧ (∀ e, loadResult = Except.error e →
        GetApps loadResult f1 = fetchAndConvert f1) := by
  refine ⟨?_, ?_, ?_⟩
  · intro l hl hne
    subst hl
    have hlen : l.length ≠ 0 := by simpa using hne
    constructor <;> simp [GetApps, hlen]
  · intro hl
    subst hl
    simp [GetApps]
  · intro e hl
    subst hl
    simp [GetApps]

/-- C9 (witness): a non-empty cache is served even when upstream is down. -/
theorem c9_witness :
    GetApps (Except.ok [cAppSingle]) (Except.error "upstream down") =
      Except.ok ([cAppSingle].map appResponseOf) ∧
    GetApps (Except.ok [cAppSingle]) (Except.error "upstream down") =
      GetApps (Except.ok [cAppSingle]) (Except.ok ⟨[]⟩) :=
  (c9_theorem (Except.ok [cAppSingle]) (Except.error "upstream down")
    (Except.ok ⟨[]⟩)).1 [cAppSingle] rfl (by simp)

/-- C10: `ToAppResponse` is total — it returns a response and a nil error for
every `App` value, so catalog mapping can never fail a request. -/
theorem c10_theorem (a : App) : ∃ r, a.ToAppResponse = Except.ok r :=
  ⟨_, rfl⟩
